import Mathlib

/-!
Shallow embedding of `monitor/position_lib.py` (position-risk aggregation
pipeline of the buibui-moon-trader-bot repository), together with theorems
settling the frozen claims about it.

Modelling conventions:
* Python floats are modelled as exact rationals (`ℚ`).
* Python's `round` (banker's rounding, also the rounding used by `f"{x:.Nf}"`
  format specifiers) is modelled by `roundHalfEven` / `roundTo`.
* Python's `ZeroDivisionError` and `KeyError`, caught or escaping, are
  modelled with `Except Unit`: a function that may raise returns
  `Except Unit α`, and `.error ()` marks the raised exception.
* Python's stable `list.sort(key=..., reverse=...)` is modelled by the
  stable `List.insertionSort` with the corresponding total preorder
  (`reverse=True` flips the comparison, which for a stable sort agrees
  with CPython's reverse semantics).
* The `ThreadPoolExecutor` fan-out of `fetch_sl` tasks and the
  `as_completed` consumption loop are modelled by an explicit completion
  order: a list of the submitted work items in the order their results are
  folded into the `sl_results` dict.  The canonical entry point uses the
  submission order; theorems about completion-order independence quantify
  over all permutations.
-/

deriving instance DecidableEq for Except

/-- ANSI escape for bright green used throughout `position_lib.py`. -/
def GREEN : String := "\x1b[92m"

/-- ANSI escape for bright red. -/
def RED : String := "\x1b[91m"

/-- ANSI escape for bright yellow. -/
def YELLOW : String := "\x1b[93m"

/-- ANSI reset escape. -/
def RESET : String := "\x1b[0m"

/-- Round a rational to the nearest integer, ties to even: the rounding mode
of Python's builtin `round` and of `format`'s fixed-point presentation. -/
def roundHalfEven (q : ℚ) : ℤ :=
  let f := ⌊q⌋
  let r := q - f
  if r < 1/2 then f
  else if 1/2 < r then f + 1
  else if f % 2 = 0 then f
  else f + 1

/-- Python's `round(x, d)`: round to `d` decimal places, ties to even. -/
def roundTo (q : ℚ) (d : ℕ) : ℚ :=
  (roundHalfEven (q * 10 ^ d) : ℚ) / 10 ^ d

/-- Insert thousands separators into a reversed digit string. -/
def commaChunk : List Char → List Char
  | a :: b :: c :: d :: rest => a :: b :: c :: ',' :: commaChunk (d :: rest)
  | l => l

/-- Python's `{:,}` comma grouping applied to a decimal digit string. -/
def commaGroup (s : String) : String :=
  String.mk (commaChunk s.toList.reverse).reverse

/-- Pad a digit string with leading zeros up to width `d`. -/
def padZeros (s : String) (d : ℕ) : String :=
  String.mk (List.replicate (d - s.length) '0') ++ s

/-- Fixed-point decimal formatting of a rational: Python's
`f"{q:(+)(,).df}"` with optional forced sign and comma grouping. -/
def fmtFixed (plus comma : Bool) (d : ℕ) (q : ℚ) : String :=
  let n := roundHalfEven (q * 10 ^ d)
  let sign := if n < 0 then "-" else if plus then "+" else ""
  let m := n.natAbs
  let ipStr := if comma then commaGroup (Nat.repr (m / 10 ^ d)) else Nat.repr (m / 10 ^ d)
  sign ++ ipStr ++ (if d = 0 then "" else "." ++ padZeros (Nat.repr (m % 10 ^ d)) d)

/-- Embeds `colorize(value, threshold=0)` from `position_lib.py` for numeric
input: green above the threshold, red below its negation, yellow in between;
the value is rendered as `{value:+.2f}%`. -/
def colorize (value threshold : ℚ) : String :=
  if value > threshold then GREEN ++ fmtFixed true false 2 value ++ "%" ++ RESET
  else if value < -threshold then RED ++ fmtFixed true false 2 value ++ "%" ++ RESET
  else YELLOW ++ fmtFixed true false 2 value ++ "%" ++ RESET

/-- Embeds `colorize_dollar(value)` for numeric input: green `${v:,.2f}` when
positive, red `-${|v|:,.2f}` when negative, yellow `$0.00` when zero. -/
def colorize_dollar (value : ℚ) : String :=
  if value > 0 then GREEN ++ "$" ++ fmtFixed false true 2 value ++ RESET
  else if value < 0 then RED ++ "-$" ++ fmtFixed false true 2 |value| ++ RESET
  else YELLOW ++ "$0.00" ++ RESET

/-- Embeds `color_sl_size(pct)`: red below 2, yellow from 2 up to (not
including) 3.5, green from 3.5 on; the value is rendered as `{pct:.2f}%`. -/
def color_sl_size (pct : ℚ) : String :=
  if pct < 2 then RED ++ fmtFixed false false 2 pct ++ "%" ++ RESET
  else if pct < 7/2 then YELLOW ++ fmtFixed false false 2 pct ++ "%" ++ RESET
  else GREEN ++ fmtFixed false false 2 pct ++ "%" ++ RESET

/-- The clamped progress ratio `min(max(current / target, 0), 1)` computed by
`display_progress_bar` for a positive target. -/
def progress_pct (current target : ℚ) : ℚ :=
  min (max (current / target) 0) 1

/-- Embeds `display_progress_bar(current, target, bar_length=30)`: empty
string for a non-positive target, otherwise a wallet-target line containing a
colored bar of `int(bar_length * pct)` filled cells and the clamped
percentage formatted to one decimal place. -/
def display_progress_bar (current target : ℚ) (bar_length : ℕ) : String :=
  if target ≤ 0 then ""
  else
    let pct := progress_pct current target
    let filled := (⌊(bar_length : ℚ) * pct⌋).toNat
    let color := if pct ≥ 1 then GREEN else if pct ≥ 1/2 then YELLOW else RED
    let bar := color ++ String.mk (List.replicate filled '█') ++
      String.mk (List.replicate (bar_length - filled) '-') ++ RESET
    "Wallet Target: $" ++ fmtFixed false true 2 current ++ " / $" ++
      fmtFixed false true 2 target ++ " |" ++ bar ++ "| " ++
      fmtFixed false false 1 (pct * 100) ++ "%"

/-- One open order as returned by `futures_get_open_orders`, with the fields
`get_stop_loss_for_symbol` inspects. -/
structure Order where
  type : String
  reduceOnly : Bool
  stopPrice : ℚ
deriving DecidableEq

/-- One entry of `futures_position_information`, with the fields
`fetch_open_positions` reads. -/
structure PositionInfo where
  symbol : String
  positionAmt : ℚ
  entryPrice : ℚ
  markPrice : ℚ
  notional : ℚ
  positionInitialMargin : ℚ
  unRealizedProfit : ℚ
deriving DecidableEq

/-- One entry of `futures_account_balance`. -/
structure BalanceEntry where
  asset : String
  balance : ℚ
  crossUnPnl : ℚ
deriving DecidableEq

/-- The market-data gateway (Binance client) as consumed by the monitor: a
fixed positions response, a fixed balance response, and a per-symbol open
orders response where `.error ()` models the request raising. -/
structure Gateway where
  positions : List PositionInfo
  balances : List BalanceEntry
  openOrders : String → Except Unit (List Order)

/-- Embeds `get_wallet_balance`: the USDT balance and unrealized PnL from the
first USDT entry, `(0, 0)` when none exists. -/
def get_wallet_balance (gw : Gateway) : ℚ × ℚ :=
  match gw.balances.find? (fun b => b.asset == "USDT") with
  | some b => (b.balance, b.crossUnPnl)
  | none => (0, 0)

/-- The reduce-only stop-order test from `get_stop_loss_for_symbol`'s loop:
`o["type"] in ("STOP_MARKET", "STOP") and o.get("reduceOnly")`. -/
def isStopOrder (o : Order) : Bool :=
  (o.type == "STOP_MARKET" || o.type == "STOP") && o.reduceOnly

/-- Embeds `get_stop_loss_for_symbol`: the stop price of the first
reduce-only stop order among the symbol's open orders; `none` when there is
no such order or the order request raised (the caught `except`). -/
def get_stop_loss_for_symbol (gw : Gateway) (symbol : String) : Option ℚ :=
  match gw.openOrders symbol with
  | .error _ => none
  | .ok orders => (orders.find? isStopOrder).map Order.stopPrice

/-- The per-symbol payload stored into `sl_results` by the join loop: the
tuple returned by `fetch_sl` minus its leading symbol. -/
structure SlResult where
  actual_sl_str : String
  sl_size_str : String
  sl_usd_str : String
  sl_risk_usd : ℚ
  sl_percent : Option ℚ
deriving DecidableEq

/-- The sentinel payload for a missing or failed stop lookup:
`("-", "-", "-", 0.0, None)`. -/
def noStopResult : SlResult :=
  { actual_sl_str := "-", sl_size_str := "-", sl_usd_str := "-",
    sl_risk_usd := 0, sl_percent := none }

/-- The non-symbol components of the tuple built by the worker-task closure
`fetch_sl(symbol, side_text, entry, notional)`.  A falsy stop price (`None`
or `0.0`) takes the no-stop branch; a zero entry with a truthy stop makes
the division raise, which the enclosing `except` maps to the same sentinel
tuple. -/
def slPayload (gw : Gateway) (symbol side_text : String) (entry notional : ℚ) :
    SlResult :=
  match get_stop_loss_for_symbol gw symbol with
  | some actual_sl =>
    if actual_sl ≠ 0 then
      if entry = 0 then noStopResult
      else
        let sl_percent := if side_text = "SHORT" then (entry - actual_sl) / entry * 100
          else (actual_sl - entry) / entry * 100
        let sl_risk_usd := notional * (sl_percent / 100)
        { actual_sl_str := fmtFixed false false 5 actual_sl,
          sl_size_str := colorize sl_percent 0,
          sl_usd_str := colorize_dollar sl_risk_usd,
          sl_risk_usd := sl_risk_usd,
          sl_percent := some sl_percent }
    else noStopResult
  | none => noStopResult

/-- Embeds `fetch_sl`: every branch returns the task's symbol first,
followed by the stop-loss payload. -/
def fetch_sl (gw : Gateway) (symbol side_text : String) (entry notional : ℚ) :
    String × SlResult :=
  (symbol, slPayload gw symbol side_text entry notional)

/-- The tuple appended to `open_positions` for one gateway entry that
survives the configured/non-flat filters. -/
structure OpenPos where
  symbol : String
  side_text : String
  entry : ℚ
  mark : ℚ
  margin : ℚ
  notional : ℚ
  amt : ℚ
  pnl : ℚ
deriving DecidableEq

/-- The field extraction applied to a raw position entry on its way into
`open_positions`: sides from the sign of the amount, absolute notional, and
the `or 1e-6` zero-margin replacement. -/
def openPosOf (pos : PositionInfo) : OpenPos :=
  { symbol := pos.symbol
    side_text := if pos.positionAmt > 0 then "LONG" else "SHORT"
    entry := pos.entryPrice
    mark := pos.markPrice
    margin := if pos.positionInitialMargin = 0 then 1/1000000 else pos.positionInitialMargin
    notional := |pos.notional|
    amt := pos.positionAmt
    pnl := pos.unRealizedProfit }

/-- Key lookup in an association list representing a Python dict: the value
of the first binding whose key matches. -/
def dlookup {α : Type} : List (String × α) → String → Option α
  | [], _ => none
  | (k, v) :: m, s => if k = s then some v else dlookup m s

/-- Embeds the first loop of `fetch_open_positions`: keep entries whose
symbol is configured and whose amount is non-zero. -/
def open_positions (positions : List PositionInfo) (coins_config : List (String × ℤ)) :
    List OpenPos :=
  positions.filterMap fun pos =>
    if (dlookup coins_config pos.symbol).isSome ∧ pos.positionAmt ≠ 0 then
      some (openPosOf pos)
    else none

/-- Python-dict insertion: replace the value of an existing key in place,
otherwise append the new binding. -/
def dictInsert {α : Type} (m : List (String × α)) (k : String) (v : α) :
    List (String × α) :=
  if (dlookup m k).isSome then
    m.map (fun e => if e.1 = k then (k, v) else e)
  else m ++ [(k, v)]

/-- The dict obtained by inserting the bindings of `l` left to right into an
empty dict (last write wins). -/
def dictOfList {α : Type} (l : List (String × α)) : List (String × α) :=
  l.foldl (fun m kv => dictInsert m kv.1 kv.2) []

/-- The `sl_results` dict after the `as_completed` loop has folded in the
`fetch_sl` results in the completion order `completion`. -/
def sl_results_of (gw : Gateway) (completion : List OpenPos) : List (String × SlResult) :=
  dictOfList (completion.map (fun p => fetch_sl gw p.symbol p.side_text p.entry p.notional))

/-- One display cell of a row: Python rows mix numbers and strings. -/
inductive Cell where
  | num (q : ℚ)
  | int (n : ℤ)
  | str (s : String)
deriving DecidableEq

/-- One row of `filtered` before the trailing strip: the 13 display entries
plus the two hidden sort keys at indices 13 and 14. -/
structure Row where
  symbol : String
  side : String
  leverage : ℤ
  entry : Cell
  mark : Cell
  margin : Cell
  notional : Cell
  pnl_str : String
  pnl_pct_str : String
  risk_pct_str : String
  sl_price_str : String
  sl_size_str : String
  sl_usd_str : String
  key_pnl : ℚ
  key_sl : ℚ
deriving DecidableEq

/-- The placeholder row appended for a configured symbol with no open
position: every display field `"-"` except the symbol and the configured
leverage, with the sentinel sort keys `-999` and `-9999`. -/
def placeholderRow (symbol : String) (leverage : ℤ) : Row :=
  { symbol := symbol, side := "-", leverage := leverage,
    entry := Cell.str "-", mark := Cell.str "-", margin := Cell.str "-",
    notional := Cell.str "-", pnl_str := "-", pnl_pct_str := "-",
    risk_pct_str := "-", sl_price_str := "-", sl_size_str := "-",
    sl_usd_str := "-", key_pnl := -999, key_sl := -9999 }

/-- The row the loop body of `fetch_open_positions` builds for one open
position out of the position fields, the wallet balance and the
`sl_results.get(symbol, sentinel)` lookup. -/
def openRow (wallet_balance : ℚ) (sl_results : List (String × SlResult))
    (p : OpenPos) : Row :=
  let r := (dlookup sl_results p.symbol).getD noStopResult
  let pnl_pct := p.pnl / p.margin * 100
  { symbol := p.symbol
    side := if p.amt > 0 then GREEN ++ p.side_text ++ RESET
      else RED ++ p.side_text ++ RESET
    leverage := roundHalfEven (p.notional / p.margin)
    entry := Cell.num (roundTo p.entry 5)
    mark := Cell.num (roundTo p.mark 5)
    margin := Cell.num (roundTo p.margin 2)
    notional := Cell.num (roundTo p.notional 2)
    pnl_str := colorize_dollar p.pnl
    pnl_pct_str := colorize pnl_pct 0
    risk_pct_str := fmtFixed false false 2 (p.margin / wallet_balance * 100) ++ "%"
    sl_price_str := r.actual_sl_str
    sl_size_str := r.sl_size_str
    sl_usd_str := r.sl_usd_str
    key_pnl := pnl_pct
    key_sl := r.sl_risk_usd }

/-- Embeds one iteration of the row-building loop of
`fetch_open_positions`.  The `Risk%` f-string divides the margin by the
wallet balance with no guard, so a zero wallet balance raises
`ZeroDivisionError` (modelled as `.error ()`). -/
def mkOpenRow (wallet_balance : ℚ) (sl_results : List (String × SlResult))
    (p : OpenPos) : Except Unit Row :=
  if wallet_balance = 0 then .error ()
  else .ok (openRow wallet_balance sl_results p)

/-- The `if sl_risk_usd: total_risk_usd += sl_risk_usd` accumulation over
the row loop. -/
def total_risk_of (sl_results : List (String × SlResult)) (opens : List OpenPos) : ℚ :=
  opens.foldl (fun acc p =>
    let r := (dlookup sl_results p.symbol).getD noStopResult
    if r.sl_risk_usd ≠ 0 then acc + r.sl_risk_usd else acc) 0

/-- The default-sort key `coin_order.index(r[0]) if r[0] in coin_order else
999`. -/
def coinIdx (coin_order : List String) (s : String) : ℕ :=
  match coin_order.indexOf? s with
  | some i => i
  | none => 999

/-- The final `filtered.sort(...)` dispatch: stable sort by the hidden
`pnl_pct` or `sl_usd` key with `reverse=descending`, or the stable default
sort by position in `coin_order` (which ignores the direction flag). -/
def sortRows (coin_order : List String) (sort_by : String) (descending : Bool)
    (rows : List Row) : List Row :=
  if sort_by = "pnl_pct" then
    if descending then rows.insertionSort (fun a b => b.key_pnl ≤ a.key_pnl)
    else rows.insertionSort (fun a b => a.key_pnl ≤ b.key_pnl)
  else if sort_by = "sl_usd" then
    if descending then rows.insertionSort (fun a b => b.key_sl ≤ a.key_sl)
    else rows.insertionSort (fun a b => a.key_sl ≤ b.key_sl)
  else
    rows.insertionSort (fun a b => coinIdx coin_order a.symbol ≤ coinIdx coin_order b.symbol)

/-- The `row[:13]` strip: the 13 display cells of a row, dropping the two
hidden sort keys. -/
def Row.display (r : Row) : List Cell :=
  [Cell.str r.symbol, Cell.str r.side, Cell.int r.leverage, r.entry, r.mark,
   r.margin, r.notional, Cell.str r.pnl_str, Cell.str r.pnl_pct_str,
   Cell.str r.risk_pct_str, Cell.str r.sl_price_str, Cell.str r.sl_size_str,
   Cell.str r.sl_usd_str]

/-- Embeds `fetch_open_positions(client, coins_config, coin_order, sort_by,
descending, hide_empty)` with the stop-loss fan-out results folded in the
explicit completion order `completion`.  `.error ()` models an uncaught
exception escaping the call (`ZeroDivisionError` in the `Risk%` field,
`KeyError` on a placeholder symbol missing from `coins_config`). -/
def fetch_open_positions_ordered (gw : Gateway) (coins_config : List (String × ℤ))
    (coin_order : List String) (sort_by : String) (descending : Bool)
    (hide_empty : Bool) (completion : List OpenPos) :
    Except Unit (List (List Cell) × ℚ) := do
  let wallet_balance := (get_wallet_balance gw).1
  let opens := open_positions gw.positions coins_config
  let sl_results := sl_results_of gw completion
  let rows ← opens.mapM (mkOpenRow wallet_balance sl_results)
  let total_risk_usd := total_risk_of sl_results opens
  let withPlaceholders ←
    if hide_empty then pure rows
    else do
      let openSyms := rows.map Row.symbol
      let missing := coin_order.filter (fun s => decide (s ∉ openSyms))
      let placeholders ← missing.mapM (fun s =>
        match dlookup coins_config s with
        | some lev => Except.ok (placeholderRow s lev)
        | none => Except.error ())
      pure (rows ++ placeholders)
  let sorted := sortRows coin_order sort_by descending withPlaceholders
  return (sorted.map Row.display, total_risk_usd)

/-- `fetch_open_positions` with the canonical completion order (the
submission order of the futures). -/
def fetch_open_positions (gw : Gateway) (coins_config : List (String × ℤ))
    (coin_order : List String) (sort_by : String) (descending : Bool)
    (hide_empty : Bool) : Except Unit (List (List Cell) × ℚ) :=
  fetch_open_positions_ordered gw coins_config coin_order sort_by descending
    hide_empty (open_positions gw.positions coins_config)

/-- A display row is a placeholder row iff its Side cell is the `"-"`
sentinel (open rows carry a colorized LONG/SHORT there). -/
def isPlaceholderDisplay (row : List Cell) : Bool :=
  row.get? 1 == some (Cell.str "-")

/-- Modelled from the spec: the leverage formula the specification states,
`round(notional / max(margin, epsilon))` with `epsilon = 1e-6`, to be
compared with the code's `round(notional / (margin or 1e-6))`. -/
def leverage_spec (notional margin : ℚ) : ℤ :=
  roundHalfEven (notional / max margin (1/1000000))

/-- A one-symbol configuration `{"BTCUSDT": {"leverage": 5}}`. -/
def cfgBTC : List (String × ℤ) := [("BTCUSDT", 5)]

/-- The coin order for `cfgBTC`. -/
def coBTC : List String := ["BTCUSDT"]

/-- A two-symbol configuration. -/
def cfg2 : List (String × ℤ) := [("BTCUSDT", 5), ("ETHUSDT", 3)]

/-- The coin order for `cfg2`. -/
def co2 : List String := ["BTCUSDT", "ETHUSDT"]

/-- An open long position used by several concrete scenarios: amount 1,
entry 100, mark 100, notional 100, initial margin 50, unrealized PnL 10. -/
def posLong : PositionInfo :=
  { symbol := "BTCUSDT", positionAmt := 1, entryPrice := 100, markPrice := 100,
    notional := 100, positionInitialMargin := 50, unRealizedProfit := 10 }

/-- Gateway for the zero-wallet scenario: one open configured position and a
balance response with no USDT entry, so `get_wallet_balance` returns 0. -/
def gwC1 : Gateway :=
  { positions := [posLong], balances := [], openOrders := fun _ => .ok [] }

/-- Gateway with one open position, a 1000 USDT wallet and no open orders. -/
def gwC2 : Gateway :=
  { positions := [posLong], balances := [⟨"USDT", 1000, 0⟩],
    openOrders := fun _ => .ok [] }

/-- A second position entry with the same symbol as `posLong` (a duplicate
gateway entry): amount -2, entry 110, notional 220, margin 40, PnL -5. -/
def posDup : PositionInfo :=
  { symbol := "BTCUSDT", positionAmt := -2, entryPrice := 110, markPrice := 100,
    notional := 220, positionInitialMargin := 40, unRealizedProfit := -5 }

/-- Gateway whose positions response contains two entries for the same
symbol, both with non-zero amount. -/
def gwC3 : Gateway :=
  { positions := [posLong, posDup], balances := [⟨"USDT", 1000, 0⟩],
    openOrders := fun _ => .ok [] }

/-- Duplicate-symbol positions differing in entry price, against a gateway
that reports a reduce-only stop at 90 for every symbol. -/
def posC5a : PositionInfo :=
  { symbol := "BTCUSDT", positionAmt := 1, entryPrice := 100, markPrice := 100,
    notional := 100, positionInitialMargin := 50, unRealizedProfit := 0 }

/-- Same symbol as `posC5a` but entry 200. -/
def posC5b : PositionInfo :=
  { symbol := "BTCUSDT", positionAmt := 1, entryPrice := 200, markPrice := 200,
    notional := 100, positionInitialMargin := 50, unRealizedProfit := 0 }

/-- Gateway for the completion-order scenario. -/
def gwC5 : Gateway :=
  { positions := [posC5a, posC5b], balances := [⟨"USDT", 1000, 0⟩],
    openOrders := fun _ => .ok [⟨"STOP_MARKET", true, 90⟩] }

/-- Position whose initial margin is strictly between 0 and 1e-6
(5e-7 = 1/2000000), with notional 1. -/
def posC7 : PositionInfo :=
  { symbol := "BTCUSDT", positionAmt := 1, entryPrice := 100, markPrice := 100,
    notional := 1, positionInitialMargin := 1/2000000, unRealizedProfit := 0 }

/-- Gateway for the tiny-margin leverage scenario. -/
def gwC7 : Gateway :=
  { positions := [posC7], balances := [⟨"USDT", 1000, 0⟩],
    openOrders := fun _ => .ok [] }

/-- Gateway whose order lookup always finds a reduce-only stop at 90. -/
def gwStop90 : Gateway :=
  { positions := [], balances := [], openOrders := fun _ => .ok [⟨"STOP_MARKET", true, 90⟩] }

/-- Gateway whose order lookup finds a reduce-only stop priced exactly 0. -/
def gwStop0 : Gateway :=
  { positions := [], balances := [], openOrders := fun _ => .ok [⟨"STOP_MARKET", true, 0⟩] }

/-- Gateway with no open orders at all. -/
def gwNoOrders : Gateway :=
  { positions := [], balances := [], openOrders := fun _ => .ok [] }

/-- Gateway whose order lookup raises for the symbol `"AUSDT"` and returns
no orders otherwise. -/
def gwC4 : Gateway :=
  { positions := [], balances := [],
    openOrders := fun s => if s = "AUSDT" then .error () else .ok [] }

/-- Two work items for the fan-out whose first symbol's lookup raises. -/
def opsC4 : List OpenPos :=
  [{ symbol := "AUSDT", side_text := "LONG", entry := 1, mark := 1, margin := 1,
     notional := 1, amt := 1, pnl := 0 },
   { symbol := "BUSDT", side_text := "LONG", entry := 1, mark := 1, margin := 1,
     notional := 1, amt := 1, pnl := 0 }]

/-- The two duplicate-symbol work items of the `gwC5` scenario. -/
def opC5a : OpenPos :=
  { symbol := "BTCUSDT", side_text := "LONG", entry := 100, mark := 100,
    margin := 50, notional := 100, amt := 1, pnl := 0 }

/-- Same symbol as `opC5a`, entry 200. -/
def opC5b : OpenPos :=
  { symbol := "BTCUSDT", side_text := "LONG", entry := 200, mark := 200,
    margin := 50, notional := 100, amt := 1, pnl := 0 }

/-- The `open_positions` tuple for `posLong` as a literal. -/
def opLong : OpenPos :=
  { symbol := "BTCUSDT", side_text := "LONG", entry := 100, mark := 100,
    margin := 50, notional := 100, amt := 1, pnl := 10 }

/-- The fully formatted row `fetch_open_positions` builds for `posLong`
against a 1000 USDT wallet with no stop order. -/
def rowLong : Row :=
  { symbol := "BTCUSDT", side := "\x1b[92mLONG\x1b[0m", leverage := 2,
    entry := Cell.num 100, mark := Cell.num 100, margin := Cell.num 50,
    notional := Cell.num 100, pnl_str := "\x1b[92m$10.00\x1b[0m",
    pnl_pct_str := "\x1b[92m+20.00%\x1b[0m", risk_pct_str := "5.00%",
    sl_price_str := "-", sl_size_str := "-", sl_usd_str := "-",
    key_pnl := 20, key_sl := 0 }

/-- C9: `color_sl_size` tiers with boundaries inclusive on the low side of
the upper band: red below 2, yellow on [2, 3.5), green from 3.5 on. -/
theorem C9_color_sl_size_tiers (pct : ℚ) :
    (pct < 2 → color_sl_size pct = RED ++ fmtFixed false false 2 pct ++ "%" ++ RESET) ∧
    (2 ≤ pct → pct < 7/2 → color_sl_size pct = YELLOW ++ fmtFixed false false 2 pct ++ "%" ++ RESET) ∧
    (7/2 ≤ pct → color_sl_size pct = GREEN ++ fmtFixed false false 2 pct ++ "%" ++ RESET) := by
  refine ⟨fun h => ?_, fun h1 h2 => ?_, fun h => ?_⟩
  · rw [color_sl_size, if_pos h]
  · rw [color_sl_size, if_neg (not_lt.mpr h1), if_pos h2]
  · rw [color_sl_size, if_neg (not_lt.mpr (le_trans (by norm_num) h)), if_neg (not_lt.mpr h)]

/-- Witness for C9 at the claim's boundary inputs 2.0 and 3.5. -/
theorem C9_witness :
    color_sl_size 2 = YELLOW ++ fmtFixed false false 2 2 ++ "%" ++ RESET ∧
    color_sl_size (7/2) = GREEN ++ fmtFixed false false 2 (7/2) ++ "%" ++ RESET :=
  ⟨(C9_color_sl_size_tiers 2).2.1 (by norm_num) (by norm_num),
   (C9_color_sl_size_tiers (7/2)).2.2 (by norm_num)⟩

/-- C8: `display_progress_bar` returns the empty string for every
non-positive target; for a positive target the rendered percentage is the
clamped ratio times 100 (one-decimal formatted) and lies within [0, 100]. -/
theorem C8_progress_bar_clamped (current target : ℚ) (bar_length : ℕ) :
    (target ≤ 0 → display_progress_bar current target bar_length = "") ∧
    (0 < target →
      (∃ pre : String,
        display_progress_bar current target bar_length =
          pre ++ fmtFixed false false 1 (progress_pct current target * 100) ++ "%") ∧
      0 ≤ progress_pct current target * 100 ∧
      progress_pct current target * 100 ≤ 100) := by
  constructor
  · intro h
    rw [display_progress_bar, if_pos h]
  · intro h
    have h0 : 0 ≤ progress_pct current target := le_min (le_max_right _ _) zero_le_one
    have h1 : progress_pct current target ≤ 1 := min_le_right _ _
    refine ⟨?_, by nlinarith, by nlinarith⟩
    exact ⟨_, by rw [display_progress_bar, if_neg (not_le.mpr h)]⟩

/-- Witness for C8: an empty bar at target -1 and in-range percentage at
current 1, target 2. -/
theorem C8_witness :
    display_progress_bar 5 (-1) 30 = "" ∧
    0 ≤ progress_pct 1 2 * 100 ∧ progress_pct 1 2 * 100 ≤ 100 :=
  ⟨(C8_progress_bar_clamped 5 (-1) 30).1 (by norm_num),
   ((C8_progress_bar_clamped 1 2 30).2 (by norm_num)).2.1,
   ((C8_progress_bar_clamped 1 2 30).2 (by norm_num)).2.2⟩

/-- C6: with a resolved (truthy) stop price and non-degenerate entry, the
stop distance is `(entry − stop)/entry×100` for SHORT and
`(stop − entry)/entry×100` for LONG, and the dollar risk is
`notional × stop_distance_pct / 100`. -/
theorem C6_stop_distance (gw : Gateway) (symbol side_text : String)
    (entry notional v : ℚ)
    (hsl : get_stop_loss_for_symbol gw symbol = some v)
    (hv : v ≠ 0) (he : entry ≠ 0) :
    (side_text = "SHORT" →
      (fetch_sl gw symbol side_text entry notional).2.sl_percent =
          some ((entry - v) / entry * 100) ∧
      (fetch_sl gw symbol side_text entry notional).2.sl_risk_usd =
          notional * ((entry - v) / entry * 100 / 100)) ∧
    (side_text = "LONG" →
      (fetch_sl gw symbol side_text entry notional).2.sl_percent =
          some ((v - entry) / entry * 100) ∧
      (fetch_sl gw symbol side_text entry notional).2.sl_risk_usd =
          notional * ((v - entry) / entry * 100 / 100)) := by
  constructor
  · intro hS
    rw [fetch_sl, slPayload, hsl]
    dsimp only
    rw [if_pos hv, if_neg he, if_pos hS]
    exact ⟨rfl, rfl⟩
  · intro hS
    have hne : ¬ side_text = "SHORT" := by rw [hS]; decide
    rw [fetch_sl, slPayload, hsl]
    dsimp only
    rw [if_pos hv, if_neg he, if_neg hne]
    exact ⟨rfl, rfl⟩

/-- Witness for C6 on a SHORT at entry 100 with a stop at 90 and notional
50, and a LONG at entry 100 with the same stop. -/
theorem C6_witness :
    ((fetch_sl gwStop90 "BTCUSDT" "SHORT" 100 50).2.sl_percent =
        some ((100 - 90) / 100 * 100) ∧
      (fetch_sl gwStop90 "BTCUSDT" "SHORT" 100 50).2.sl_risk_usd =
        50 * ((100 - 90) / 100 * 100 / 100)) ∧
    ((fetch_sl gwStop90 "BTCUSDT" "LONG" 100 50).2.sl_percent =
        some ((90 - 100) / 100 * 100) ∧
      (fetch_sl gwStop90 "BTCUSDT" "LONG" 100 50).2.sl_risk_usd =
        50 * ((90 - 100) / 100 * 100 / 100)) :=
  ⟨(C6_stop_distance gwStop90 "BTCUSDT" "SHORT" 100 50 90 rfl
      (by norm_num) (by norm_num)).1 rfl,
   (C6_stop_distance gwStop90 "BTCUSDT" "LONG" 100 50 90 rfl
      (by norm_num) (by norm_num)).2 rfl⟩

/-- C10: a reduce-only stop whose price is exactly 0 is returned by
`get_stop_loss_for_symbol` but treated by `fetch_sl`'s truthiness test like
no stop at all: the sentinel tuple, indistinguishable from a gateway with no
stop order, with a zero risk contribution. -/
theorem C10_zero_priced_stop (gw gw2 : Gateway) (symbol side_text : String)
    (entry notional : ℚ)
    (h : get_stop_loss_for_symbol gw symbol = some 0)
    (h2 : get_stop_loss_for_symbol gw2 symbol = none) :
    fetch_sl gw symbol side_text entry notional = (symbol, noStopResult) ∧
    fetch_sl gw symbol side_text entry notional =
      fetch_sl gw2 symbol side_text entry notional ∧
    noStopResult.sl_risk_usd = 0 := by
  have e1 : fetch_sl gw symbol side_text entry notional = (symbol, noStopResult) := by
    rw [fetch_sl, slPayload, h]
    simp
  have e2 : fetch_sl gw2 symbol side_text entry notional = (symbol, noStopResult) := by
    rw [fetch_sl, slPayload, h2]
  exact ⟨e1, e1.trans e2.symm, rfl⟩

/-- Witness for C10: a gateway reporting a zero-priced reduce-only stop
versus one reporting no orders. -/
theorem C10_witness :
    fetch_sl gwStop0 "BTCUSDT" "LONG" 100 50 = ("BTCUSDT", noStopResult) ∧
    fetch_sl gwStop0 "BTCUSDT" "LONG" 100 50 =
      fetch_sl gwNoOrders "BTCUSDT" "LONG" 100 50 ∧
    noStopResult.sl_risk_usd = 0 :=
  C10_zero_priced_stop gwStop0 gwNoOrders "BTCUSDT" "LONG" 100 50 rfl rfl

lemma ok_bind {α β : Type} (a : α) (f : α → Except Unit β) :
    (Except.ok a >>= f) = f a := rfl

lemma error_bind {α β : Type} (f : α → Except Unit β) :
    ((Except.error () : Except Unit α) >>= f) = Except.error () := rfl

lemma pure_eq_ok {α : Type} (a : α) : (pure a : Except Unit α) = Except.ok a := rfl

lemma map_ok {α β : Type} (f : α → β) (a : α) :
    (Except.ok a : Except Unit α).map f = Except.ok (f a) := rfl

lemma mkOpenRow_zero_wallet (m : List (String × SlResult)) (p : OpenPos) :
    mkOpenRow 0 m p = .error () := by
  simp [mkOpenRow]

lemma mapM_mkOpenRow_cons_zero (m : List (String × SlResult)) (p : OpenPos)
    (ps : List OpenPos) :
    (p :: ps).mapM (mkOpenRow 0 m) = (Except.error () : Except Unit (List Row)) := by
  rw [List.mapM_cons, mkOpenRow_zero_wallet, error_bind]

lemma mapM_mkOpenRow_map {w : ℚ} (hw : w ≠ 0) (m : List (String × SlResult))
    (opens : List OpenPos) :
    opens.mapM (mkOpenRow w m) = .ok (opens.map (openRow w m)) := by
  induction opens with
  | nil => rfl
  | cons p ps ih =>
    rw [List.mapM_cons, mkOpenRow, if_neg hw, ok_bind, ih, ok_bind]
    rfl

lemma mapM_mkOpenRow_ok {w : ℚ} {m : List (String × SlResult)}
    {opens : List OpenPos} {rows0 : List Row}
    (h : opens.mapM (mkOpenRow w m) = .ok rows0) :
    rows0 = opens.map (openRow w m) := by
  induction opens generalizing rows0 with
  | nil =>
    rw [List.mapM_nil, pure_eq_ok] at h
    exact (Except.ok.inj h).symm
  | cons p ps ih =>
    rw [List.mapM_cons] at h
    by_cases hw : w = 0
    · rw [mkOpenRow, if_pos hw, error_bind] at h
      exact absurd h (by simp)
    · rw [mkOpenRow, if_neg hw, ok_bind] at h
      cases hps : ps.mapM (mkOpenRow w m) with
      | error e => rw [hps, error_bind] at h; exact absurd h (by simp)
      | ok rs =>
        rw [hps, ok_bind, pure_eq_ok] at h
        rw [← Except.ok.inj h, ih hps]
        rfl

/-- C1 evidence: with one open configured position and a zero wallet
balance, `fetch_open_positions` raises `ZeroDivisionError` while computing
the `Risk%` field instead of rendering a `"-"`/`"0.00%"` marker. -/
theorem C1_zero_wallet_raises :
    fetch_open_positions gwC1 cfgBTC coBTC "default" true false = .error () := by
  have hop : open_positions gwC1.positions cfgBTC = [openPosOf posLong] := by decide
  have hw : (get_wallet_balance gwC1).1 = 0 := rfl
  rw [fetch_open_positions, fetch_open_positions_ordered]
  dsimp only
  rw [hw, hop, mapM_mkOpenRow_cons_zero, error_bind]

lemma insertionSort_singleton {α : Type} (r : α → α → Prop) [DecidableRel r] (a : α) :
    List.insertionSort r [a] = [a] := rfl

/-- C7 amended: the row leverage is `round(notional / margin)` where an
exactly-zero initial margin is replaced by 1e-6 (Python's `or`), so the
denominator is never zero; margins that are merely smaller than 1e-6 are
used as they are, not floored. -/
theorem C7_leverage_zero_or_floor (wallet_balance : ℚ) (m : List (String × SlResult))
    (pos : PositionInfo) (r : Row)
    (hr : mkOpenRow wallet_balance m (openPosOf pos) = .ok r) :
    (if pos.positionInitialMargin = 0 then (1:ℚ)/1000000 else pos.positionInitialMargin) ≠ 0 ∧
    r.leverage = roundHalfEven (|pos.notional| /
      (if pos.positionInitialMargin = 0 then (1:ℚ)/1000000 else pos.positionInitialMargin)) := by
  constructor
  · by_cases h : pos.positionInitialMargin = 0
    · rw [if_pos h]; norm_num
    · rw [if_neg h]; exact h
  · rw [mkOpenRow] at hr
    by_cases hw : wallet_balance = 0
    · rw [if_pos hw] at hr; exact absurd hr (by simp)
    · rw [if_neg hw] at hr
      rw [← Except.ok.inj hr]
      rfl

/-- Witness for the amended C7 at a position with margin 50 and notional
100 against a 1000 wallet. -/
theorem C7_leverage_zero_or_floor_witness :
    (if posLong.positionInitialMargin = 0 then (1:ℚ)/1000000 else posLong.positionInitialMargin) ≠ 0 ∧
    (openRow 1000 [] (openPosOf posLong)).leverage =
      roundHalfEven (|posLong.notional| /
        (if posLong.positionInitialMargin = 0 then (1:ℚ)/1000000 else posLong.positionInitialMargin)) :=
  C7_leverage_zero_or_floor 1000 [] posLong (openRow 1000 [] (openPosOf posLong))
    (by rw [mkOpenRow, if_neg (by norm_num)])

/-- C7 counterexample: for a margin of 5e-7 (positive but below the
epsilon) and notional 1 the displayed leverage is 2000000, while the
claimed formula `round(notional / max(margin, 1e-6))` gives 1000000. -/
theorem C7_counterexample :
    (fetch_open_positions gwC7 cfgBTC coBTC "default" true true).map
        (fun pr => pr.1.map (fun row => row.get? 2)) = .ok [some (Cell.int 2000000)] ∧
    leverage_spec 1 (1/2000000) = 1000000 ∧
    Cell.int 2000000 ≠ Cell.int (leverage_spec 1 (1/2000000)) := by
  have hop : open_positions gwC7.positions cfgBTC = [openPosOf posC7] := by
    rw [open_positions, gwC7]
    dsimp only [List.filterMap]
    rw [if_pos ⟨by decide, by norm_num [posC7]⟩]
  have hlev : (openRow 1000 (sl_results_of gwC7 [openPosOf posC7]) (openPosOf posC7)).leverage
      = 2000000 := by
    dsimp only [openRow, openPosOf, posC7]
    norm_num [roundHalfEven]
  have h2 : leverage_spec 1 (1/2000000) = 1000000 := by
    rw [leverage_spec,
      show max (1/2000000 : ℚ) (1/1000000) = 1/1000000 from max_eq_right (by norm_num)]
    norm_num [roundHalfEven]
  refine ⟨?_, h2, ?_⟩
  · rw [fetch_open_positions, fetch_open_positions_ordered]
    dsimp only
    rw [hop, show (get_wallet_balance gwC7).1 = (1000:ℚ) from rfl,
      mapM_mkOpenRow_map (by norm_num) _ _, ok_bind, if_pos rfl, pure_eq_ok, ok_bind,
      pure_eq_ok, map_ok]
    rw [sortRows, if_neg (by decide), if_neg (by decide), List.map_cons,
      List.map_nil, insertionSort_singleton]
    dsimp only [List.map, Row.display, List.get?]
    rw [hlev]
  · rw [h2]
    decide

lemma dlookup_cons {α : Type} (k : String) (v : α) (m : List (String × α)) (s : String) :
    dlookup ((k, v) :: m) s = if k = s then some v else dlookup m s := rfl

lemma dlookup_map_replace {α : Type} (m : List (String × α)) (k : String) (v : α)
    (s : String) :
    dlookup (m.map (fun e => if e.1 = k then (k, v) else e)) s =
      if k = s then (if (dlookup m k).isSome then some v else none)
      else dlookup m s := by
  induction m with
  | nil => simp [dlookup]
  | cons e es ih =>
    obtain ⟨ek, ev⟩ := e
    by_cases he : ek = k
    · subst he
      have hh : (if (ek, ev).1 = ek then ((ek, v) : String × α) else (ek, ev)) = (ek, v) := by
        simp
      rw [List.map_cons, hh]
      by_cases hs : ek = s
      · simp [dlookup_cons, hs]
      · simp [dlookup_cons, hs, ih]
    · have hh : (if (ek, ev).1 = k then ((k, v) : String × α) else (ek, ev)) = (ek, ev) := by
        simp [he]
      rw [List.map_cons, hh]
      by_cases hs : ek = s
      · have hks : ¬ k = s := fun h => he (hs.trans h.symm)
        simp [dlookup_cons, hs, hks, he]
      · by_cases hks : k = s
        · subst hks
          simp [dlookup_cons, hs, he, ih]
        · simp [dlookup_cons, hs, hks, he, ih]

lemma dlookup_append_single {α : Type} (m : List (String × α)) (k : String) (v : α)
    (s : String) (hmem : (dlookup m k).isSome = false) :
    dlookup (m ++ [(k, v)]) s = if k = s then some v else dlookup m s := by
  induction m with
  | nil => by_cases hks : k = s <;> simp [dlookup, hks]
  | cons e es ih =>
    obtain ⟨ek, ev⟩ := e
    rw [List.cons_append, dlookup_cons, dlookup_cons]
    by_cases hs : ek = s
    · rw [if_pos hs, if_pos hs]
      have hks : ¬ k = s := by
        intro h
        rw [dlookup_cons, if_pos (hs.trans h.symm)] at hmem
        exact absurd hmem (by simp)
      rw [if_neg hks]
    · rw [if_neg hs, if_neg hs]
      have hek : ¬ ek = k := by
        intro h
        rw [dlookup_cons, if_pos h] at hmem
        exact absurd hmem (by simp)
      rw [dlookup_cons, if_neg hek] at hmem
      exact ih hmem

lemma dlookup_dictInsert {α : Type} (m : List (String × α)) (k : String) (v : α)
    (s : String) :
    dlookup (dictInsert m k v) s = if k = s then some v else dlookup m s := by
  rw [dictInsert]
  by_cases hmem : (dlookup m k).isSome = true
  · rw [if_pos hmem, dlookup_map_replace]
    by_cases hks : k = s
    · rw [if_pos hks, if_pos hks, if_pos hmem]
    · rw [if_neg hks, if_neg hks]
  · rw [if_neg hmem]
    exact dlookup_append_single m k v s (Bool.not_eq_true _ ▸ hmem)

lemma keys_dictInsert {α : Type} (m : List (String × α)) (k : String) (v : α) :
    (dictInsert m k v).map Prod.fst =
      if (dlookup m k).isSome then m.map Prod.fst else m.map Prod.fst ++ [k] := by
  rw [dictInsert]
  by_cases hmem : (dlookup m k).isSome = true
  · rw [if_pos hmem, if_pos hmem, List.map_map]
    apply List.map_congr_left
    intro e he
    by_cases h : e.1 = k
    · simp [h]
    · simp [h]
  · rw [if_neg hmem, if_neg hmem, List.map_append]
    rfl

lemma mem_keys_iff_isSome {α : Type} (m : List (String × α)) (s : String) :
    s ∈ m.map Prod.fst ↔ (dlookup m s).isSome = true := by
  induction m with
  | nil => simp [dlookup]
  | cons e es ih =>
    obtain ⟨ek, ev⟩ := e
    rw [List.map_cons, List.mem_cons, dlookup_cons]
    by_cases h : ek = s
    · simp [h]
    · have h' : ¬ s = ek := fun hh => h hh.symm
      simp [h, h', ih]

lemma keys_nodup_dictInsert {α : Type} (m : List (String × α)) (k : String) (v : α)
    (h : (m.map Prod.fst).Nodup) : ((dictInsert m k v).map Prod.fst).Nodup := by
  rw [keys_dictInsert]
  by_cases hmem : (dlookup m k).isSome = true
  · rwa [if_pos hmem]
  · rw [if_neg hmem, List.nodup_append]
    refine ⟨h, List.nodup_singleton k, ?_⟩
    intro a ha hb
    rw [List.mem_singleton] at hb
    subst hb
    rw [mem_keys_iff_isSome] at ha
    exact hmem ha

lemma keys_nodup_foldl {α : Type} (l : List (String × α)) :
    ∀ m : List (String × α), (m.map Prod.fst).Nodup →
      ((l.foldl (fun m kv => dictInsert m kv.1 kv.2) m).map Prod.fst).Nodup := by
  induction l with
  | nil => intro m h; exact h
  | cons kv l ih =>
    intro m h
    exact ih _ (keys_nodup_dictInsert _ _ _ h)

lemma mem_keys_foldl {α : Type} (l : List (String × α)) (s : String) :
    ∀ m : List (String × α),
      (s ∈ (l.foldl (fun m kv => dictInsert m kv.1 kv.2) m).map Prod.fst ↔
        s ∈ m.map Prod.fst ∨ s ∈ l.map Prod.fst) := by
  induction l with
  | nil => intro m; simp
  | cons kv l ih =>
    intro m
    rw [List.foldl_cons, ih, List.map_cons, List.mem_cons, keys_dictInsert]
    by_cases hmem : (dlookup m kv.1).isSome = true
    · rw [if_pos hmem]
      constructor
      · tauto
      · rintro (h | h | h)
        · tauto
        · subst h
          exact Or.inl ((mem_keys_iff_isSome _ _).mpr hmem)
        · tauto
    · rw [if_neg hmem, List.mem_append, List.mem_singleton]
      tauto

lemma dlookup_foldl {α : Type} (l : List (String × α)) (s : String) :
    ∀ m : List (String × α),
      dlookup (l.foldl (fun m kv => dictInsert m kv.1 kv.2) m) s =
        match l.reverse.find? (fun kv => decide (kv.1 = s)) with
        | some kv => some kv.2
        | none => dlookup m s := by
  induction l with
  | nil => intro m; rfl
  | cons kv l ih =>
    intro m
    rw [List.foldl_cons, ih, List.reverse_cons, List.find?_append]
    cases hf : l.reverse.find? (fun kv => decide (kv.1 = s)) with
    | some a => rfl
    | none =>
      dsimp only [Option.or]
      rw [dlookup_dictInsert]
      by_cases hks : kv.1 = s
      · simp [List.find?_cons, hks]
      · simp [List.find?_cons, hks]

lemma find?_eq_head_filter {β : Type} (p : β → Bool) (l : List β) :
    l.find? p = (l.filter p).head? := by
  induction l with
  | nil => rfl
  | cons a l ih =>
    cases h : p a with
    | true => rw [List.find?_cons, List.filter_cons, h]; rfl
    | false => rw [List.find?_cons, List.filter_cons, h, ih]; rfl

lemma perm_eq_of_length_le_one {β : Type} : ∀ {l1 l2 : List β}, l1.Perm l2 →
    l1.length ≤ 1 → l1 = l2
  | [], l2, h, _ => (h.symm.eq_nil).symm
  | [a], l2, h, _ => List.singleton_perm.mp h
  | a :: b :: t, _, _, hl => by simp at hl

lemma length_le_one_of_nodup_all_eq {β : Type} :
    ∀ l : List β, l.Nodup → ∀ c : β, (∀ x ∈ l, x = c) → l.length ≤ 1
  | [], _, _, _ => by simp
  | [a], _, _, _ => by simp
  | a :: b :: t, hnd, c, hall => by
    exfalso
    have ha := hall a (by simp)
    have hb := hall b (by simp)
    rw [List.nodup_cons] at hnd
    exact hnd.1 (by rw [ha, ← hb]; exact List.mem_cons_self b t)

lemma filter_key_length_le_one {α : Type} (l : List (String × α)) (s : String)
    (h : (l.map Prod.fst).Nodup) :
    (l.filter (fun kv => decide (kv.1 = s))).length ≤ 1 := by
  have hsub : ((l.filter (fun kv => decide (kv.1 = s))).map Prod.fst).Sublist
      (l.map Prod.fst) := (List.filter_sublist l).map Prod.fst
  have hnd : ((l.filter (fun kv => decide (kv.1 = s))).map Prod.fst).Nodup :=
    List.Nodup.sublist hsub h
  have hall : ∀ x ∈ (l.filter (fun kv => decide (kv.1 = s))).map Prod.fst, x = s := by
    intro x hx
    obtain ⟨kv, hkv, hfst⟩ := List.mem_map.mp hx
    rw [← hfst]
    exact of_decide_eq_true (List.mem_filter.mp hkv).2
  have hlen := length_le_one_of_nodup_all_eq _ hnd s hall
  rwa [List.length_map] at hlen

lemma dlookup_dictOfList_perm {α : Type} (l1 l2 : List (String × α)) (hp : l1.Perm l2)
    (hnd : (l1.map Prod.fst).Nodup) (s : String) :
    dlookup (dictOfList l1) s = dlookup (dictOfList l2) s := by
  rw [dictOfList, dictOfList, dlookup_foldl, dlookup_foldl]
  have hfl : l1.filter (fun kv => decide (kv.1 = s)) =
      l2.filter (fun kv => decide (kv.1 = s)) :=
    perm_eq_of_length_le_one (hp.filter _) (filter_key_length_le_one l1 s hnd)
  have hfind : l1.reverse.find? (fun kv => decide (kv.1 = s)) =
      l2.reverse.find? (fun kv => decide (kv.1 = s)) := by
    rw [find?_eq_head_filter, find?_eq_head_filter, List.filter_reverse,
      List.filter_reverse, hfl]
  rw [hfind]

/-- C4: the fan-out result mapping has pairwise-distinct keys, its keys are
exactly the symbols of the submitted work items (in any completion order),
and a symbol whose order lookup raises is mapped to the absent sentinel
instead of aborting the join: every other symbol still gets its entry. -/
theorem C4_fanout_isolation (gw : Gateway) (completion : List OpenPos) :
    ((sl_results_of gw completion).map Prod.fst).Nodup ∧
    (∀ s, s ∈ (sl_results_of gw completion).map Prod.fst ↔
      s ∈ completion.map OpenPos.symbol) ∧
    (∀ p ∈ completion, gw.openOrders p.symbol = .error () →
      dlookup (sl_results_of gw completion) p.symbol = some noStopResult) := by
  have hkeys : (completion.map
        (fun p => fetch_sl gw p.symbol p.side_text p.entry p.notional)).map Prod.fst =
      completion.map OpenPos.symbol := by
    rw [List.map_map]
    rfl
  refine ⟨?_, ?_, ?_⟩
  · rw [sl_results_of, dictOfList]
    exact keys_nodup_foldl _ [] (by simp)
  · intro s
    rw [sl_results_of, dictOfList, mem_keys_foldl, hkeys]
    simp
  · intro p hp herr
    rw [sl_results_of, dictOfList, dlookup_foldl]
    cases hf : (completion.map
        (fun p => fetch_sl gw p.symbol p.side_text p.entry p.notional)).reverse.find?
        (fun kv => decide (kv.1 = p.symbol)) with
    | none =>
      exfalso
      have hmem : fetch_sl gw p.symbol p.side_text p.entry p.notional ∈
          (completion.map
            (fun p => fetch_sl gw p.symbol p.side_text p.entry p.notional)).reverse := by
        rw [List.mem_reverse]
        exact List.mem_map_of_mem _ hp
      have hsome : ((completion.map
          (fun p => fetch_sl gw p.symbol p.side_text p.entry p.notional)).reverse.find?
          (fun kv => decide (kv.1 = p.symbol))).isSome := by
        rw [List.find?_isSome]
        exact ⟨_, hmem, by rw [fetch_sl]; simp⟩
      rw [hf] at hsome
      simp at hsome
    | some kv =>
      have hpkv := @List.find?_some _ (fun kv => decide (kv.1 = p.symbol)) kv _ hf
      have hkv1 : kv.1 = p.symbol := by simpa using hpkv
      have hkvmem : kv ∈ completion.map
          (fun p => fetch_sl gw p.symbol p.side_text p.entry p.notional) := by
        rw [← List.mem_reverse]
        exact List.mem_of_find?_eq_some hf
      obtain ⟨q, hq, hqe⟩ := List.mem_map.mp hkvmem
      have hqsym : q.symbol = p.symbol := by
        rw [← hkv1, ← hqe]
        rfl
      have hsl : get_stop_loss_for_symbol gw q.symbol = none := by
        rw [get_stop_loss_for_symbol, hqsym, herr]
      dsimp only
      rw [← hqe, fetch_sl]
      dsimp only
      rw [slPayload, hsl]

/-- Witness for C4: a two-symbol fan-out whose first symbol's order lookup
raises; the failed symbol maps to the sentinel and the other symbol is
still present, with no duplicate keys. -/
theorem C4_witness :
    dlookup (sl_results_of gwC4 opsC4) "AUSDT" = some noStopResult ∧
    "BUSDT" ∈ (sl_results_of gwC4 opsC4).map Prod.fst ∧
    ((sl_results_of gwC4 opsC4).map Prod.fst).Nodup := by
  have h := C4_fanout_isolation gwC4 opsC4
  refine ⟨?_, (h.2.1 "BUSDT").mpr (by decide), h.1⟩
  exact h.2.2
    { symbol := "AUSDT", side_text := "LONG", entry := 1, mark := 1, margin := 1,
      notional := 1, amt := 1, pnl := 0 } (by decide) rfl

/-- C5 amended: when the gateway reports at most one position entry per
symbol, the assembled output is independent of the completion order of the
stop-loss tasks — any two completion orders (permutations of the submitted
work items) produce identical rows and total risk. -/
theorem C5_deterministic_of_unique_symbols (gw : Gateway) (cfg : List (String × ℤ))
    (co : List String) (sb : String) (desc hide_e : Bool) (c1 c2 : List OpenPos)
    (h1 : c1.Perm (open_positions gw.positions cfg))
    (h2 : c2.Perm (open_positions gw.positions cfg))
    (hnd : ((open_positions gw.positions cfg).map OpenPos.symbol).Nodup) :
    fetch_open_positions_ordered gw cfg co sb desc hide_e c1 =
      fetch_open_positions_ordered gw cfg co sb desc hide_e c2 := by
  have hlook : ∀ s, dlookup (sl_results_of gw c1) s = dlookup (sl_results_of gw c2) s := by
    intro s
    rw [sl_results_of, sl_results_of]
    apply dlookup_dictOfList_perm
    · exact (h1.trans h2.symm).map _
    · rw [List.map_map]
      exact List.Perm.nodup (h1.map OpenPos.symbol).symm hnd
  have hrowf : mkOpenRow (get_wallet_balance gw).1 (sl_results_of gw c1) =
      mkOpenRow (get_wallet_balance gw).1 (sl_results_of gw c2) := by
    funext p
    simp only [mkOpenRow, openRow, hlook]
  have htot : total_risk_of (sl_results_of gw c1) (open_positions gw.positions cfg) =
      total_risk_of (sl_results_of gw c2) (open_positions gw.positions cfg) := by
    rw [total_risk_of, total_risk_of]
    congr 1
    funext acc p
    rw [hlook]
  rw [fetch_open_positions_ordered, fetch_open_positions_ordered]
  dsimp only
  rw [hrowf, htot]

/-- Witness for the amended C5 on a single-symbol gateway with two
completion orders (the submission order and its recomputation). -/
theorem C5_witness :
    fetch_open_positions_ordered gwC2 cfg2 co2 "pnl_pct" true false
        [openPosOf posLong] =
      fetch_open_positions_ordered gwC2 cfg2 co2 "pnl_pct" true false
        (open_positions gwC2.positions cfg2) := by
  have hopens : open_positions gwC2.positions cfg2 = [openPosOf posLong] := by decide
  exact C5_deterministic_of_unique_symbols gwC2 cfg2 co2 "pnl_pct" true false _ _
    (by rw [hopens]) (List.Perm.refl _) (by rw [hopens]; decide)

lemma slPayload_C5_of_entry (entry : ℚ) (he : entry ≠ 0) :
    (slPayload gwC5 "BTCUSDT" "LONG" entry 100).sl_risk_usd =
      100 * ((90 - entry) / entry * 100 / 100) := by
  rw [slPayload, show get_stop_loss_for_symbol gwC5 "BTCUSDT" = some 90 from rfl]
  dsimp only
  rw [if_pos (by norm_num : (90:ℚ) ≠ 0), if_neg he, if_neg (by decide : ¬"LONG" = "SHORT")]

lemma sl_results_C5_ab : sl_results_of gwC5 [opC5a, opC5b] =
    [("BTCUSDT", slPayload gwC5 "BTCUSDT" "LONG" 200 100)] := rfl

lemma sl_results_C5_ba : sl_results_of gwC5 [opC5b, opC5a] =
    [("BTCUSDT", slPayload gwC5 "BTCUSDT" "LONG" 100 100)] := rfl

lemma total_risk_C5_ab :
    total_risk_of (sl_results_of gwC5 [opC5a, opC5b]) [opC5a, opC5b] = -110 := by
  have hr : (slPayload gwC5 "BTCUSDT" "LONG" 200 100).sl_risk_usd = -55 := by
    rw [slPayload_C5_of_entry 200 (by norm_num)]
    norm_num
  rw [total_risk_of, List.foldl_cons, List.foldl_cons, List.foldl_nil, sl_results_C5_ab]
  dsimp only [opC5a, opC5b]
  rw [show dlookup [("BTCUSDT", slPayload gwC5 "BTCUSDT" "LONG" 200 100)] "BTCUSDT" =
    some (slPayload gwC5 "BTCUSDT" "LONG" 200 100) from rfl]
  dsimp only [Option.getD]
  rw [hr]
  norm_num

lemma total_risk_C5_ba :
    total_risk_of (sl_results_of gwC5 [opC5b, opC5a]) [opC5a, opC5b] = -20 := by
  have hr : (slPayload gwC5 "BTCUSDT" "LONG" 100 100).sl_risk_usd = -10 := by
    rw [slPayload_C5_of_entry 100 (by norm_num)]
    norm_num
  rw [total_risk_of, List.foldl_cons, List.foldl_cons, List.foldl_nil, sl_results_C5_ba]
  dsimp only [opC5a, opC5b]
  rw [show dlookup [("BTCUSDT", slPayload gwC5 "BTCUSDT" "LONG" 100 100)] "BTCUSDT" =
    some (slPayload gwC5 "BTCUSDT" "LONG" 100 100) from rfl]
  dsimp only [Option.getD]
  rw [hr]
  norm_num

lemma opens_C5 : open_positions gwC5.positions cfgBTC = [opC5a, opC5b] := by decide

lemma fetch_C5_snd (completion : List OpenPos) :
    (fetch_open_positions_ordered gwC5 cfgBTC coBTC "default" true true completion).map
      Prod.snd = Except.ok (total_risk_of (sl_results_of gwC5 completion) [opC5a, opC5b]) := by
  rw [fetch_open_positions_ordered]
  dsimp only
  rw [opens_C5, show (get_wallet_balance gwC5).1 = (1000:ℚ) from rfl,
    mapM_mkOpenRow_map (by norm_num : (1000:ℚ) ≠ 0) _ _, ok_bind, if_pos rfl,
    pure_eq_ok, ok_bind, pure_eq_ok, map_ok]

/-- C5 counterexample: with two gateway entries for the same symbol (entries
100 and 200) and a stop at 90, two valid completion orders of the stop-loss
tasks give different outputs (total risks -110 versus -20): the join is not
independent of completion order when symbols repeat. -/
theorem C5_counterexample :
    [opC5a, opC5b].Perm (open_positions gwC5.positions cfgBTC) ∧
    [opC5b, opC5a].Perm (open_positions gwC5.positions cfgBTC) ∧
    fetch_open_positions_ordered gwC5 cfgBTC coBTC "default" true true [opC5a, opC5b] ≠
      fetch_open_positions_ordered gwC5 cfgBTC coBTC "default" true true [opC5b, opC5a] := by
  refine ⟨by rw [opens_C5], by rw [opens_C5]; exact List.Perm.swap opC5a opC5b [], ?_⟩
  intro h
  have hproj := congrArg (Except.map Prod.snd) h
  rw [fetch_C5_snd, fetch_C5_snd, total_risk_C5_ab, total_risk_C5_ba] at hproj
  have : (-110 : ℚ) = -20 := Except.ok.inj hproj
  norm_num at this

/-- C3 counterexample: a gateway response containing two entries for the
same symbol (both with non-zero amount) yields two rows for that symbol in
the report — one per entry, not one per symbol. -/
theorem C3_counterexample :
    (fetch_open_positions gwC3 cfgBTC coBTC "default" true true).map
        (fun pr => pr.1.countP (fun row => row.get? 0 == some (Cell.str "BTCUSDT"))) =
      .ok 2 := by
  decide

lemma sortRows_perm (co : List String) (sb : String) (desc : Bool) (rows : List Row) :
    (sortRows co sb desc rows).Perm rows := by
  rw [sortRows]
  split_ifs <;> exact List.perm_insertionSort _ _

lemma map_symbol_openRow (w : ℚ) (m : List (String × SlResult)) (opens : List OpenPos) :
    ((opens.map (openRow w m)).map Row.symbol) = opens.map OpenPos.symbol := by
  rw [List.map_map]
  rfl

lemma isPlaceholderDisplay_display (r : Row) :
    isPlaceholderDisplay (Row.display r) = true ↔ r.side = "-" := by
  rw [isPlaceholderDisplay, Row.display]
  dsimp only [List.get?]
  rw [beq_iff_eq]
  simp only [Option.some.injEq, Cell.str.injEq]

lemma side_openRow_ne (w : ℚ) (m : List (String × SlResult)) (p : OpenPos) :
    (openRow w m p).side ≠ "-" := by
  rw [openRow]
  dsimp only
  intro hcontra
  have hlen : ((if p.amt > 0 then GREEN ++ p.side_text ++ RESET
      else RED ++ p.side_text ++ RESET)).length = ("-").length := by rw [hcontra]
  rw [show ("-").length = 1 from rfl] at hlen
  by_cases h : p.amt > 0
  · rw [if_pos h, String.length_append, String.length_append,
      show GREEN.length = 5 from rfl, show RESET.length = 4 from rfl] at hlen
    omega
  · rw [if_neg h, String.length_append, String.length_append,
      show RED.length = 5 from rfl, show RESET.length = 4 from rfl] at hlen
    omega

lemma countP_eq_le_one {l : List String} (hnd : l.Nodup) (s : String) :
    l.countP (fun x => decide (x = s)) ≤ 1 := by
  rw [List.countP_eq_length_filter]
  exact length_le_one_of_nodup_all_eq _
    (List.Nodup.sublist (List.filter_sublist l) hnd) s
    (fun x hx => of_decide_eq_true (List.mem_filter.mp hx).2)

lemma mapM_placeholder_ok {cfg : List (String × ℤ)} :
    ∀ {missing : List String} {ph : List Row},
      missing.mapM (fun s => match dlookup cfg s with
        | some lev => Except.ok (placeholderRow s lev)
        | none => (Except.error () : Except Unit Row)) = .ok ph →
      ph.map Row.symbol = missing ∧ ∀ r ∈ ph, ∃ s lev, r = placeholderRow s lev := by
  intro missing
  induction missing with
  | nil =>
    intro ph h
    rw [List.mapM_nil, pure_eq_ok] at h
    rw [← Except.ok.inj h]
    exact ⟨rfl, by simp⟩
  | cons s ms ih =>
    intro ph h
    rw [List.mapM_cons] at h
    cases hl : dlookup cfg s with
    | none =>
      rw [hl] at h
      dsimp only at h
      rw [error_bind] at h
      exact absurd h (by simp)
    | some lev =>
      rw [hl] at h
      dsimp only at h
      rw [ok_bind] at h
      cases hms : ms.mapM (fun s => match dlookup cfg s with
        | some lev => Except.ok (placeholderRow s lev)
        | none => (Except.error () : Except Unit Row)) with
      | error e =>
        rw [hms, error_bind] at h
        exact absurd h (by simp)
      | ok ph' =>
        rw [hms, ok_bind, pure_eq_ok] at h
        obtain ⟨ih1, ih2⟩ := ih hms
        rw [← Except.ok.inj h]
        constructor
        · rw [List.map_cons, ih1]
          rfl
        · intro r hr
          rcases List.mem_cons.mp hr with h' | h'
          · exact ⟨s, lev, h'⟩
          · exact ih2 r h'

lemma fetch_ordered_ok_rows {gw : Gateway} {cfg : List (String × ℤ)} {co : List String}
    {sb : String} {desc he : Bool} {completion : List OpenPos}
    {rows : List (List Cell)} {t : ℚ}
    (hres : fetch_open_positions_ordered gw cfg co sb desc he completion = .ok (rows, t)) :
    ∃ ph : List Row,
      rows = (sortRows co sb desc
        ((open_positions gw.positions cfg).map
          (openRow (get_wallet_balance gw).1 (sl_results_of gw completion)) ++ ph)).map
        Row.display ∧
      ph.map Row.symbol = (if he then [] else
        co.filter (fun s =>
          decide (s ∉ (open_positions gw.positions cfg).map OpenPos.symbol))) ∧
      ∀ r ∈ ph, ∃ s lev, r = placeholderRow s lev := by
  rw [fetch_open_positions_ordered] at hres
  dsimp only at hres
  cases hmap : (open_positions gw.positions cfg).mapM
      (mkOpenRow (get_wallet_balance gw).1 (sl_results_of gw completion)) with
  | error e =>
    rw [hmap, error_bind] at hres
    exact absurd hres (by simp)
  | ok rows0 =>
    rw [hmap, ok_bind] at hres
    have hr0 := mapM_mkOpenRow_ok hmap
    cases he with
    | true =>
      rw [if_pos rfl, pure_eq_ok, ok_bind, pure_eq_ok] at hres
      have h1 := (Prod.mk.inj (Except.ok.inj hres)).1
      refine ⟨[], ?_, by simp, by simp⟩
      rw [← h1, hr0, List.append_nil]
    | false =>
      rw [if_neg (by simp)] at hres
      rw [hr0, map_symbol_openRow] at hres
      cases hph : ((co.filter (fun s =>
          decide (s ∉ (open_positions gw.positions cfg).map OpenPos.symbol))).mapM
          (fun s => match dlookup cfg s with
            | some lev => Except.ok (placeholderRow s lev)
            | none => (Except.error () : Except Unit Row))) with
      | error e =>
        rw [hph, error_bind] at hres
        exact absurd hres (by simp)
      | ok ph =>
        rw [hph, ok_bind, pure_eq_ok, ok_bind, pure_eq_ok] at hres
        have h1 := (Prod.mk.inj (Except.ok.inj hres)).1
        obtain ⟨hm1, hm2⟩ := mapM_placeholder_ok hph
        refine ⟨ph, ?_, ?_, hm2⟩
        · rw [← h1]
        · rw [hm1, if_neg (by simp)]

lemma pairwise_placeholder_sorted_key (key : Row → ℚ) (sentinel : ℚ) (base : List Row)
    (hbase : ∀ r ∈ base,
      (r.side = "-" ∧ key r = sentinel) ∨ (r.side ≠ "-" ∧ sentinel < key r)) :
    ((List.insertionSort (fun a b => key b ≤ key a) base).map Row.display).Pairwise
      (fun a b => isPlaceholderDisplay a = true → isPlaceholderDisplay b = true) := by
  rw [List.pairwise_map]
  have hsorted := @List.sorted_insertionSort Row (fun a b => key b ≤ key a)
    (fun a b => inferInstanceAs (Decidable (key b ≤ key a)))
    ⟨fun a b => le_total (key b) (key a)⟩
    ⟨fun a b c hab hbc => le_trans hbc hab⟩ base
  have hperm := List.perm_insertionSort (fun a b => key b ≤ key a) base
  refine List.Pairwise.imp_of_mem ?_ hsorted
  intro a b ha hb hr hpa
  rw [isPlaceholderDisplay_display] at hpa ⊢
  rcases hbase a (hperm.subset ha) with ⟨_, hka⟩ | ⟨hsa, _⟩
  · rcases hbase b (hperm.subset hb) with ⟨hsb2, _⟩ | ⟨_, hkb⟩
    · exact hsb2
    · exfalso
      rw [hka] at hr
      exact absurd hr (not_le.mpr hkb)
  · exact absurd hpa hsa

/-- C2 amended: under the descending direction actually applied by default,
every flat-symbol placeholder row sorts after every open-position row whose
hidden sort key exceeds the sentinel (-999 for pnl_pct, -9999 for sl_usd);
under the ascending direction the placeholders sort first instead, and the
sentinels are not true minima of the key space. -/
theorem C2_placeholders_last_descending (gw : Gateway) (cfg : List (String × ℤ))
    (co : List String) (sb : String) (he : Bool) (completion : List OpenPos)
    (rows : List (List Cell)) (t : ℚ)
    (hsb : sb = "pnl_pct" ∨ sb = "sl_usd")
    (hkp : sb = "pnl_pct" → ∀ p ∈ open_positions gw.positions cfg,
      -999 < p.pnl / p.margin * 100)
    (hks : sb = "sl_usd" → ∀ p ∈ open_positions gw.positions cfg,
      -9999 < ((dlookup (sl_results_of gw completion) p.symbol).getD noStopResult).sl_risk_usd)
    (hres : fetch_open_positions_ordered gw cfg co sb true he completion = .ok (rows, t)) :
    rows.Pairwise (fun a b => isPlaceholderDisplay a = true → isPlaceholderDisplay b = true) := by
  obtain ⟨ph, hrows, _, hphall⟩ := fetch_ordered_ok_rows hres
  subst hrows
  have hbase1 : ∀ r ∈ ((open_positions gw.positions cfg).map
      (openRow (get_wallet_balance gw).1 (sl_results_of gw completion)) ++ ph),
      (r.side = "-" ∧ r.key_pnl = -999 ∧ r.key_sl = -9999) ∨
      (r.side ≠ "-" ∧ (sb = "pnl_pct" → -999 < r.key_pnl) ∧
        (sb = "sl_usd" → -9999 < r.key_sl)) := by
    intro r hr
    rcases List.mem_append.mp hr with h | h
    · obtain ⟨p, hp, hre⟩ := List.mem_map.mp h
      right
      rw [← hre]
      exact ⟨side_openRow_ne _ _ _, fun hsb' => hkp hsb' p hp, fun hsb' => hks hsb' p hp⟩
    · obtain ⟨s, lev, hre⟩ := hphall r h
      left
      rw [hre]
      exact ⟨rfl, rfl, rfl⟩
  rcases hsb with hsb | hsb
  · subst hsb
    rw [sortRows, if_pos rfl, if_pos rfl]
    apply pairwise_placeholder_sorted_key Row.key_pnl (-999)
    intro r hr
    rcases hbase1 r hr with ⟨h1, h2, _⟩ | ⟨h1, h2, _⟩
    · exact Or.inl ⟨h1, h2⟩
    · exact Or.inr ⟨h1, h2 rfl⟩
  · subst hsb
    rw [sortRows, if_neg (by decide), if_pos rfl, if_pos rfl]
    apply pairwise_placeholder_sorted_key Row.key_sl (-9999)
    intro r hr
    rcases hbase1 r hr with ⟨h1, _, h3⟩ | ⟨h1, _, h3⟩
    · exact Or.inl ⟨h1, h3⟩
    · exact Or.inr ⟨h1, h3 rfl⟩

/-- C3 amended: the report has one row per gateway position entry, so a
duplicate-symbol response yields duplicate rows; when the gateway reports
each configured symbol at most once (and the coin order has no duplicates),
every symbol gets at most one row. -/
theorem C3_unique_rows_of_nodup (gw : Gateway) (cfg : List (String × ℤ))
    (co : List String) (sb : String) (desc he : Bool)
    (rows : List (List Cell)) (t : ℚ)
    (hnd : ((open_positions gw.positions cfg).map OpenPos.symbol).Nodup)
    (hco : co.Nodup)
    (hres : fetch_open_positions gw cfg co sb desc he = .ok (rows, t)) (s : String) :
    rows.countP (fun row => row.get? 0 == some (Cell.str s)) ≤ 1 := by
  rw [fetch_open_positions] at hres
  obtain ⟨ph, hrows, hphsym, _⟩ := fetch_ordered_ok_rows hres
  subst hrows
  rw [List.countP_map]
  have hpred : ((fun row => row.get? 0 == some (Cell.str s)) ∘ Row.display) =
      (fun r : Row => decide (r.symbol = s)) := by
    funext r
    by_cases h : r.symbol = s
    · simp [Row.display, h]
    · simp [Row.display, h]
  rw [hpred, List.Perm.countP_eq _ (sortRows_perm co sb desc _), List.countP_append]
  have h1 : List.countP (fun r : Row => decide (r.symbol = s))
      ((open_positions gw.positions cfg).map
        (openRow (get_wallet_balance gw).1
          (sl_results_of gw (open_positions gw.positions cfg)))) =
      List.countP (fun x => decide (x = s))
        ((open_positions gw.positions cfg).map OpenPos.symbol) := by
    rw [List.countP_map, List.countP_map]
    rfl
  have h2 : List.countP (fun r : Row => decide (r.symbol = s)) ph =
      List.countP (fun x => decide (x = s)) (ph.map Row.symbol) := by
    rw [List.countP_map]
    rfl
  rw [h1, h2, hphsym]
  cases he with
  | true =>
    rw [if_pos rfl, List.countP_nil]
    simpa using countP_eq_le_one hnd s
  | false =>
    rw [if_neg (by simp), ← List.countP_append]
    refine countP_eq_le_one ?_ s
    rw [List.nodup_append]
    refine ⟨hnd, List.Nodup.filter _ hco, ?_⟩
    intro a ha hb
    exact absurd ha (of_decide_eq_true (List.mem_filter.mp hb).2)

lemma opens_gwC2 : open_positions gwC2.positions cfg2 = [opLong] := by decide

lemma sl_results_gwC2 : sl_results_of gwC2 [opLong] = [("BTCUSDT", noStopResult)] := by
  decide

lemma fmt_p20 : fmtFixed true false 2 20 = "+20.00" := by
  rw [fmtFixed, show roundHalfEven ((20:ℚ) * 10 ^ 2) = 2000 from by norm_num [roundHalfEven]]
  decide

lemma fmt_c10 : fmtFixed false true 2 10 = "10.00" := by
  rw [fmtFixed, show roundHalfEven ((10:ℚ) * 10 ^ 2) = 1000 from by norm_num [roundHalfEven]]
  decide

lemma fmt_5 : fmtFixed false false 2 5 = "5.00" := by
  rw [fmtFixed, show roundHalfEven ((5:ℚ) * 10 ^ 2) = 500 from by norm_num [roundHalfEven]]
  decide

lemma openRow_opLong :
    openRow 1000 [("BTCUSDT", noStopResult)] opLong = rowLong := by
  rw [openRow]
  dsimp only [opLong]
  rw [show (10:ℚ) / 50 * 100 = 20 from by norm_num,
    show (50:ℚ) / 1000 * 100 = 5 from by norm_num,
    show (100:ℚ) / 50 = 2 from by norm_num,
    show (dlookup [("BTCUSDT", noStopResult)] "BTCUSDT").getD noStopResult =
      noStopResult from rfl]
  rw [show roundHalfEven (2:ℚ) = 2 from by norm_num [roundHalfEven],
    show roundTo 100 5 = 100 from by norm_num [roundTo, roundHalfEven],
    show roundTo 100 2 = 100 from by norm_num [roundTo, roundHalfEven],
    show roundTo 50 2 = 50 from by norm_num [roundTo, roundHalfEven],
    show colorize_dollar 10 = GREEN ++ "$" ++ "10.00" ++ RESET from by
      rw [colorize_dollar, if_pos (by norm_num : (10:ℚ) > 0), fmt_c10],
    show colorize 20 0 = GREEN ++ "+20.00" ++ "%" ++ RESET from by
      rw [colorize, if_pos (by norm_num : (20:ℚ) > 0), fmt_p20],
    fmt_5]
  decide

lemma fetch_gwC2_base (sb : String) (desc : Bool) :
    fetch_open_positions_ordered gwC2 cfg2 co2 sb desc false [opLong] =
      .ok ((sortRows co2 sb desc [rowLong, placeholderRow "ETHUSDT" 3]).map Row.display,
        0) := by
  rw [fetch_open_positions_ordered]
  dsimp only
  rw [opens_gwC2, show (get_wallet_balance gwC2).1 = (1000:ℚ) from rfl, sl_results_gwC2,
    mapM_mkOpenRow_map (show (1000:ℚ) ≠ 0 by norm_num) _ _, ok_bind, List.map_cons,
    List.map_nil, openRow_opLong, if_neg (by decide)]
  rfl

/-- C2 counterexample: with one open position (at a profit) and one flat
configured symbol, the ascending pnl_pct sort puts the placeholder row
first and the open-position row last — the -999 sentinel sinks to the
bottom only under the descending direction. -/
theorem C2_counterexample :
    (fetch_open_positions gwC2 cfg2 co2 "pnl_pct" false false).map
        (fun pr => pr.1.map isPlaceholderDisplay) = .ok [true, false] := by
  rw [fetch_open_positions, opens_gwC2, fetch_gwC2_base,
    show sortRows co2 "pnl_pct" false [rowLong, placeholderRow "ETHUSDT" 3] =
      [placeholderRow "ETHUSDT" 3, rowLong] from by decide]
  decide

/-- Witness for the amended C2: the concrete descending pnl_pct report for
one open position and one flat symbol, with the placeholder row last. -/
theorem C2_witness :
    (("pnl_pct":String) = "pnl_pct" ∨ ("pnl_pct":String) = "sl_usd") ∧
    fetch_open_positions_ordered gwC2 cfg2 co2 "pnl_pct" true false [opLong] =
      .ok ([Row.display rowLong, Row.display (placeholderRow "ETHUSDT" 3)], 0) ∧
    ([Row.display rowLong, Row.display (placeholderRow "ETHUSDT" 3)]).Pairwise
      (fun a b => isPlaceholderDisplay a = true → isPlaceholderDisplay b = true) := by
  have hres : fetch_open_positions_ordered gwC2 cfg2 co2 "pnl_pct" true false [opLong] =
      .ok ([Row.display rowLong, Row.display (placeholderRow "ETHUSDT" 3)], 0) := by
    rw [fetch_gwC2_base,
      show sortRows co2 "pnl_pct" true [rowLong, placeholderRow "ETHUSDT" 3] =
        [rowLong, placeholderRow "ETHUSDT" 3] from by decide]
    rfl
  refine ⟨Or.inl rfl, hres, ?_⟩
  refine C2_placeholders_last_descending gwC2 cfg2 co2 "pnl_pct" false [opLong] _ 0
    (Or.inl rfl) ?_ (fun h => absurd h (by decide)) hres
  intro _ p hp
  rw [opens_gwC2, List.mem_singleton] at hp
  subst hp
  norm_num [opLong]

/-- Witness for the amended C3: with a gateway reporting each symbol once,
the concrete report has at most one row for `"BTCUSDT"`. -/
theorem C3_witness :
    ((open_positions gwC2.positions cfg2).map OpenPos.symbol).Nodup ∧ co2.Nodup ∧
    fetch_open_positions gwC2 cfg2 co2 "default" true false =
      .ok ([Row.display rowLong, Row.display (placeholderRow "ETHUSDT" 3)], 0) ∧
    ([Row.display rowLong, Row.display (placeholderRow "ETHUSDT" 3)]).countP
      (fun row => row.get? 0 == some (Cell.str "BTCUSDT")) ≤ 1 := by
  have hres : fetch_open_positions gwC2 cfg2 co2 "default" true false =
      .ok ([Row.display rowLong, Row.display (placeholderRow "ETHUSDT" 3)], 0) := by
    rw [fetch_open_positions, opens_gwC2, fetch_gwC2_base,
      show sortRows co2 "default" true [rowLong, placeholderRow "ETHUSDT" 3] =
        [rowLong, placeholderRow "ETHUSDT" 3] from by decide]
    rfl
  exact ⟨by decide, by decide, hres,
    C3_unique_rows_of_nodup gwC2 cfg2 co2 "default" true false _ 0
      (by decide) (by decide) hres "BTCUSDT"⟩
